import Mathlib

/-!
Shallow embedding of `src/mod.ts` (denops-arg-store).

The TypeScript module stores, per function name (or the wildcard `"_"`),
a flat JavaScript record of argument name/value pairs, and resolves the
effective arguments of a call by layered object spreads.

JavaScript records (`Record<string, unknown>`) and the `Map` field
`#store` are both modelled as association lists with first-match lookup
(`rget`) and in-place update (`rset`); the object spread `{...a, ...b}`
is `rspread a b`, a left fold of `rset` over `b`, which reproduces the
JavaScript semantics (keys of `b` overwrite same-named keys of `a`,
other keys of `a` are kept).  Actual JavaScript objects never hold two
entries with the same key; that representation invariant is `ArgsWF` /
`StoreWF` below.

`unknown` values are modelled by the inductive `Value` (numbers,
strings, booleans and nested records), enough to express every record
the module itself builds, in particular the nested `old` record that
`patchFuncArgs` creates with `{ old, ...args }`.
-/

/-- A JavaScript `unknown` value, as far as this module manipulates it. -/
inductive Value where
  | vint (n : Int) : Value
  | vstr (s : String) : Value
  | vbool (b : Bool) : Value
  | vobj (fields : List (String × Value)) : Value

/-- `Args = Record<string, unknown>` from `src/mod.ts` line 9-10. -/
abbrev Args := List (String × Value)

/-- The `#store : Map<string | CrossFunc, Args>` field (line 16). -/
abbrev Store := List (String × Args)

/-- First-match key lookup: JavaScript property access / `Map.get`. -/
def rget {β : Type} : List (String × β) → String → Option β
  | [], _ => none
  | p :: rest, k => if p.1 = k then some p.2 else rget rest k

/-- Key update: JavaScript `obj[k] = v` / `Map.set` — overwrites the
entry in place when the key is present, appends it otherwise. -/
def rset {β : Type} : List (String × β) → String → β → List (String × β)
  | [], k, v => [(k, v)]
  | p :: rest, k, v => if p.1 = k then (k, v) :: rest else p :: rset rest k v

/-- The keys of a record, in order. -/
def keys {β : Type} (l : List (String × β)) : List String := l.map Prod.fst

/-- Object spread `{...a, ...b}`: every entry of `b` written over `a`. -/
def rspread {β : Type} (a b : List (String × β)) : List (String × β) :=
  b.foldl (fun acc p => rset acc p.1 p.2) a

/-- A record is well formed when its keys are pairwise distinct — true
of every actual JavaScript record. -/
def ArgsWF (a : Args) : Prop := (keys a).Nodup

/-- The store state of a live `ArgStore`: distinct keys, each holding a
well-formed record. -/
def StoreWF (s : Store) : Prop := (keys s).Nodup ∧ ∀ p ∈ s, ArgsWF p.2

instance (a : Args) : Decidable (ArgsWF a) := by
  unfold ArgsWF; infer_instance

instance (s : Store) : Decidable (StoreWF s) := by
  unfold StoreWF; infer_instance

namespace ArgStore

/-- `setFuncArg` (src/mod.ts lines 24-32):
`const args = this.#store.get(func) || {}; args[arg] = value;
this.#store.set(func, args);` -/
def setFuncArg (s : Store) (func arg : String) (value : Value) : Store :=
  let args := (rget s func).getD []
  rset s func (rset args arg value)

/-- `patchFuncArgs` (src/mod.ts lines 59-62):
`const old = this.#store.get(func) || {};
this.#store.set(func, { old, ...args });` — note that the prior record
is nested under the literal key `"old"`, not spread. -/
def patchFuncArgs (s : Store) (func : String) (args : Args) : Store :=
  let old := (rget s func).getD []
  rset s func (rspread [("old", Value.vobj old)] args)

/-- `patchArgs` (src/mod.ts lines 84-89): iterates the given keyed
record set in order and repeats the `patchFuncArgs` body for each key. -/
def patchArgs (s : Store) (argSet : List (String × Args)) : Store :=
  argSet.foldl
    (fun st p =>
      let old := (rget st p.1).getD []
      rset st p.1 (rspread [("old", Value.vobj old)] p.2))
    s

/-- `getArgs` (src/mod.ts lines 141-149):
`const cross = this.#store.get("_") || {};
const target = this.#store.get(func) || {};
return { ...cross, ...target, ...override };`
The method performs no store write, so its state component is the
input store unchanged; spreading an absent `override` adds nothing. -/
def getArgs (s : Store) (func : String) (override : Option Args) : Store × Args :=
  let cross := (rget s "_").getD []
  let target := (rget s func).getD []
  (s, rspread (rspread cross target) (override.getD []))

end ArgStore

/-- `isArgs = is.RecordOf(is.Unknown, is.String)` (src/mod.ts line 9):
holds exactly of flat string-keyed records. -/
def isArgs : Value → Bool
  | .vobj _ => true
  | _ => false

/-- The two failure kinds of the adapter layer: `ensure(uArgs, isArgs)`
failing (malformed input) and `ensure(resolved, pred)` failing (the
merged record does not satisfy the declared shape). -/
inductive DispatchError where
  | validationError : DispatchError
  | resolvedArgsTypeError : DispatchError
deriving DecidableEq

namespace ArgStore

/-- `ensureArgs` (src/mod.ts lines 107-109):
`return ensure(this.getArgs(func, ensure(uArgs, isArgs)), pred);` —
first the untyped input must be a flat record (else `ensure` throws),
then the resolved record must satisfy `pred` (else `ensure` throws). -/
def ensureArgs (s : Store) (func : String) (pred : Args → Bool) (uArgs : Value) :
    Except DispatchError Args :=
  match uArgs with
  | .vobj o =>
    let resolved := (getArgs s func (some o)).2
    if pred resolved then .ok resolved else .error .resolvedArgsTypeError
  | _ => .error .validationError

/-- `makeDispatcher` (src/mod.ts lines 125-134): the produced entry
point runs `functionBody(denops, this.ensureArgs(functionName, isArgs,
uArgs))`; when `ensureArgs` throws, the body is never reached. -/
def makeDispatcher {δ ρ : Type} (s : Store) (denops : δ) (functionName : String)
    (isArgsPred : Args → Bool) (functionBody : δ → Args → ρ) (uArgs : Value) :
    Except DispatchError ρ :=
  (ensureArgs s functionName isArgsPred uArgs).map (functionBody denops)

end ArgStore

/-! ### Lookup and update lemmas for the record model -/

section Lemmas

variable {β : Type}

theorem rget_rset (l : List (String × β)) (k : String) (v : β) (x : String) :
    rget (rset l k v) x = if k = x then some v else rget l x := by
  induction l with
  | nil => simp [rget, rset]
  | cons p rest ih =>
    by_cases hpk : p.1 = k
    · subst hpk
      by_cases hx : p.1 = x <;> simp [rget, rset, hx]
    · by_cases hx : p.1 = x
      · subst hx
        have hkx : ¬ k = p.1 := fun h => hpk h.symm
        simp [rget, rset, hpk, hkx]
      · simp [rget, rset, hpk, hx, ih]

theorem mem_keys_rset (l : List (String × β)) (k : String) (v : β) (x : String) :
    x ∈ keys (rset l k v) ↔ x = k ∨ x ∈ keys l := by
  induction l with
  | nil => simp [keys, rset]
  | cons p rest ih =>
    by_cases hpk : p.1 = k
    · subst hpk
      have hr : rset (p :: rest) p.1 v = (p.1, v) :: rest := by simp [rset]
      rw [hr]
      simp only [keys, List.map_cons, List.mem_cons]
      tauto
    · have hr : rset (p :: rest) k v = p :: rset rest k v := by simp [rset, hpk]
      rw [hr]
      simp only [keys, List.map_cons, List.mem_cons] at ih ⊢
      rw [ih]
      tauto

theorem nodup_keys_rset (l : List (String × β)) (k : String) (v : β)
    (h : (keys l).Nodup) : (keys (rset l k v)).Nodup := by
  induction l with
  | nil => simp [keys, rset]
  | cons p rest ih =>
    simp only [keys, List.map_cons, List.nodup_cons] at h
    by_cases hpk : p.1 = k
    · subst hpk
      simpa [rset, keys, List.nodup_cons] using h
    · simp only [rset, if_neg hpk, keys, List.map_cons, List.nodup_cons]
      refine ⟨fun hmem => ?_, ih h.2⟩
      rcases (mem_keys_rset rest k v p.1).1 hmem with h1 | h1
      · exact hpk h1
      · exact h.1 h1

theorem rget_eq_none_iff (l : List (String × β)) (x : String) :
    rget l x = none ↔ x ∉ keys l := by
  induction l with
  | nil => simp [rget, keys]
  | cons p rest ih =>
    simp only [keys, List.map_cons, List.mem_cons, not_or] at ih ⊢
    by_cases hx : p.1 = x
    · subst hx
      simp [rget]
    · simp only [rget, if_neg hx]
      rw [ih]
      constructor
      · exact fun h => ⟨fun hc => hx hc.symm, h⟩
      · exact fun h => h.2

theorem rget_rspread_of_none (a b : List (String × β)) (x : String)
    (h : rget b x = none) : rget (rspread a b) x = rget a x := by
  induction b generalizing a with
  | nil => rfl
  | cons p rest ih =>
    by_cases hx : p.1 = x
    · simp [rget, hx] at h
    · simp only [rget, if_neg hx] at h
      show rget (rspread (rset a p.1 p.2) rest) x = rget a x
      rw [ih _ h, rget_rset, if_neg hx]

theorem rget_rspread_of_some (a b : List (String × β)) (x : String) (v : β)
    (hb : (keys b).Nodup) (h : rget b x = some v) :
    rget (rspread a b) x = some v := by
  induction b generalizing a with
  | nil => simp [rget] at h
  | cons p rest ih =>
    simp only [keys, List.map_cons, List.nodup_cons] at hb
    by_cases hx : p.1 = x
    · subst hx
      have hpv : p.2 = v := by simpa [rget] using h
      subst hpv
      have hnone : rget rest p.1 = none := (rget_eq_none_iff rest p.1).2 hb.1
      show rget (rspread (rset a p.1 p.2) rest) p.1 = some p.2
      rw [rget_rspread_of_none _ _ _ hnone, rget_rset, if_pos rfl]
    · have h2 : rget rest x = some v := by simpa [rget, hx] using h
      exact ih hb.2 h2 (a := rset a p.1 p.2)

theorem rget_mem (l : List (String × β)) (k : String) (v : β)
    (h : rget l k = some v) : (k, v) ∈ l := by
  induction l with
  | nil => simp [rget] at h
  | cons p rest ih =>
    by_cases hx : p.1 = k
    · have hpv : p.2 = v := by simpa [rget, hx] using h
      have hkv : (k, v) = p := by
        cases p
        simp_all
      rw [hkv]
      exact List.mem_cons_self _ _
    · have h2 : rget rest k = some v := by simpa [rget, hx] using h
      exact List.mem_cons_of_mem _ (ih h2)

end Lemmas

/-! ### Derived facts about the store operations -/

theorem argsWF_of_storeWF (s : Store) (f : String) (hs : StoreWF s) :
    ArgsWF ((rget s f).getD []) := by
  cases hrec : rget s f with
  | none => simp [ArgsWF, keys]
  | some a =>
    simpa using hs.2 (f, a) (rget_mem s f a hrec)

theorem rget_setFuncArg (s : Store) (func arg : String) (value : Value) (x : String) :
    rget (ArgStore.setFuncArg s func arg value) x =
      if func = x then some (rset ((rget s func).getD []) arg value) else rget s x := by
  unfold ArgStore.setFuncArg
  rw [rget_rset]

theorem rget_patchFuncArgs (s : Store) (func : String) (args : Args) (x : String) :
    rget (ArgStore.patchFuncArgs s func args) x =
      if func = x then
        some (rspread [("old", Value.vobj ((rget s func).getD []))] args)
      else rget s x := by
  unfold ArgStore.patchFuncArgs
  rw [rget_rset]

/-- The loop body of `patchArgs` is exactly the body of `patchFuncArgs`. -/
theorem patchArgs_eq_foldl (s : Store) (argSet : List (String × Args)) :
    ArgStore.patchArgs s argSet =
      argSet.foldl (fun st p => ArgStore.patchFuncArgs st p.1 p.2) s := rfl

theorem isSome_rget_rset (l : Store) (k : String) (v : Args) (x : String)
    (h : (rget l x).isSome) : (rget (rset l k v) x).isSome := by
  rw [rget_rset]
  by_cases hk : k = x <;> simp [hk, h]

/-- Spreading nothing over a record leaves it unchanged. -/
theorem rspread_nil {β : Type} (a : List (String × β)) : rspread a [] = a := rfl

theorem nodup_keys_rspread {β : Type} (a b : List (String × β))
    (h : (keys a).Nodup) : (keys (rspread a b)).Nodup := by
  induction b generalizing a with
  | nil => exact h
  | cons p rest ih => exact ih (rset a p.1 p.2) (nodup_keys_rset a p.1 p.2 h)

theorem mem_rset {β : Type} (l : List (String × β)) (k : String) (v : β)
    (p : String × β) (h : p ∈ rset l k v) : p ∈ l ∨ p = (k, v) := by
  induction l with
  | nil => simpa [rset] using h
  | cons q rest ih =>
    by_cases hq : q.1 = k
    · have hr : rset (q :: rest) k v = (k, v) :: rest := by simp [rset, hq]
      rw [hr] at h
      rcases List.mem_cons.1 h with h1 | h1
      · exact Or.inr h1
      · exact Or.inl (List.mem_cons_of_mem _ h1)
    · have hr : rset (q :: rest) k v = q :: rset rest k v := by simp [rset, hq]
      rw [hr] at h
      rcases List.mem_cons.1 h with h1 | h1
      · exact Or.inl (h1 ▸ List.mem_cons_self _ _)
      · rcases ih h1 with h2 | h2
        · exact Or.inl (List.mem_cons_of_mem _ h2)
        · exact Or.inr h2

/-- Writing a well-formed record into a well-formed store keeps it
well formed. -/
theorem storeWF_rset (s : Store) (f : String) (a : Args)
    (hs : StoreWF s) (ha : ArgsWF a) : StoreWF (rset s f a) := by
  refine ⟨nodup_keys_rset s f a hs.1, fun p hp => ?_⟩
  rcases mem_rset s f a p hp with h | h
  · exact hs.2 p h
  · rw [h]
    exact ha

/-- `setFuncArg` preserves the store invariant. -/
theorem storeWF_setFuncArg (s : Store) (func arg : String) (value : Value)
    (hs : StoreWF s) : StoreWF (ArgStore.setFuncArg s func arg value) :=
  storeWF_rset s func _ hs
    (nodup_keys_rset _ arg value (argsWF_of_storeWF s func hs))

/-- `patchFuncArgs` preserves the store invariant. -/
theorem storeWF_patchFuncArgs (s : Store) (func : String) (args : Args)
    (hs : StoreWF s) : StoreWF (ArgStore.patchFuncArgs s func args) :=
  storeWF_rset s func _ hs
    (nodup_keys_rspread [("old", Value.vobj ((rget s func).getD []))] args
      (by simp [keys]))

/-- `patchArgs` preserves the store invariant. -/
theorem storeWF_patchArgs (s : Store) (argSet : List (String × Args))
    (hs : StoreWF s) : StoreWF (ArgStore.patchArgs s argSet) := by
  rw [patchArgs_eq_foldl]
  induction argSet generalizing s with
  | nil => exact hs
  | cons p rest ih => exact ih _ (storeWF_patchFuncArgs s p.1 p.2 hs)

theorem getArgs_snd (s : Store) (func : String) (o : Option Args) :
    (ArgStore.getArgs s func o).2 =
      rspread (rspread ((rget s "_").getD []) ((rget s func).getD []))
        (o.getD []) := rfl

theorem getArgs_none_snd (s : Store) (func : String) :
    (ArgStore.getArgs s func none).2 =
      rspread ((rget s "_").getD []) ((rget s func).getD []) := rfl

/-! ### Claim theorems -/

/-- C2: starting from the empty store, after `setFuncArg("f","a",1)`
followed by `patchFuncArgs("f", {b:2})` the record stored for `"f"`
contains `b -> 2` and a field `"old"` holding the prior record
`{a: 1}`. -/
theorem claim_C2_patch_nests_old :
    rget ((rget (ArgStore.patchFuncArgs
        (ArgStore.setFuncArg [] "f" "a" (Value.vint 1)) "f"
        [("b", Value.vint 2)]) "f").getD []) "b" = some (Value.vint 2) ∧
    rget ((rget (ArgStore.patchFuncArgs
        (ArgStore.setFuncArg [] "f" "a" (Value.vint 1)) "f"
        [("b", Value.vint 2)]) "f").getD []) "old"
      = some (Value.vobj [("a", Value.vint 1)]) := ⟨rfl, rfl⟩

/-- C3: for every well-formed store state (the invariant of every store
a live `ArgStore` can hold, see `storeWF_setFuncArg` and friends),
after `setFuncArg(k, n, v)` a call to `getArgs(k)` with no override
returns a record mapping `n` to `v`. -/
theorem claim_C3_setFuncArg_getArgs (s : Store) (func arg : String) (value : Value)
    (hs : StoreWF s) :
    rget ((ArgStore.getArgs (ArgStore.setFuncArg s func arg value) func none).2) arg
      = some value := by
  rw [getArgs_none_snd]
  have htarget : rget (ArgStore.setFuncArg s func arg value) func
      = some (rset ((rget s func).getD []) arg value) := by
    rw [rget_setFuncArg, if_pos rfl]
  rw [htarget]
  apply rget_rspread_of_some
  · exact nodup_keys_rset _ arg value (argsWF_of_storeWF s func hs)
  · rw [Option.getD_some, rget_rset, if_pos rfl]

/-- Witness for C3 at the empty store, `setFuncArg("f","a",1)`. -/
theorem claim_C3_witness :
    StoreWF ([] : Store) ∧
    rget ((ArgStore.getArgs (ArgStore.setFuncArg [] "f" "a" (Value.vint 1)) "f" none).2) "a"
      = some (Value.vint 1) :=
  ⟨by decide, claim_C3_setFuncArg_getArgs [] "f" "a" (Value.vint 1) (by decide)⟩

/-- C5: an override key always wins — whatever is stored for the
function or the wildcard, `getArgs(f, o)` maps every key of `o` to
`o`'s value for it. -/
theorem claim_C5_override_wins (s : Store) (func : String) (override : Args)
    (x : String) (v : Value) (ho : ArgsWF override) (hx : rget override x = some v) :
    rget ((ArgStore.getArgs s func (some override)).2) x = some v := by
  rw [getArgs_snd]
  exact rget_rspread_of_some _ override x v ho hx

/-- Witness for C5: `getArgs("f", {x: 3})` yields `x = 3` although both
the wildcard and `"f"` store other values for `x`. -/
theorem claim_C5_witness :
    ArgsWF [("x", Value.vint 3)] ∧
    rget ((ArgStore.getArgs [("_", [("x", Value.vint 1)]), ("f", [("x", Value.vint 2)])]
        "f" (some [("x", Value.vint 3)])).2) "x" = some (Value.vint 3) :=
  ⟨by decide,
   claim_C5_override_wins [("_", [("x", Value.vint 1)]), ("f", [("x", Value.vint 2)])]
     "f" [("x", Value.vint 3)] "x" (Value.vint 3) (by decide) rfl⟩

/-- C6: `getArgs` never modifies the store — its state component is the
input store unchanged — and hence a repeated call on the store it
returns yields the identical record. -/
theorem claim_C6_getArgs_pure (s : Store) (func : String) (override : Option Args) :
    (ArgStore.getArgs s func override).1 = s ∧
    (ArgStore.getArgs ((ArgStore.getArgs s func none).1) func none).2
      = (ArgStore.getArgs s func none).2 := ⟨rfl, rfl⟩

/-- C4: on a well-formed store, for a function `f` other than the
wildcard, a key defined by both the wildcard record and `f`'s record
resolves to `f`'s value, while a wildcard key absent from `f`'s record
still reaches the result with the wildcard's value. -/
theorem claim_C4_function_beats_wildcard (s : Store) (f x y : String) (u v w : Value)
    (hs : StoreWF s) (_hf : f ≠ "_") :
    (rget ((rget s "_").getD []) x = some u →
     rget ((rget s f).getD []) x = some v →
     rget ((ArgStore.getArgs s f none).2) x = some v) ∧
    (rget ((rget s "_").getD []) y = some w →
     rget ((rget s f).getD []) y = none →
     rget ((ArgStore.getArgs s f none).2) y = some w) := by
  constructor
  · intro hcx hfx
    rw [getArgs_none_snd]
    exact rget_rspread_of_some _ _ x v (argsWF_of_storeWF s f hs) hfx
  · intro hcy hfy
    rw [getArgs_none_snd, rget_rspread_of_none _ _ y hfy]
    exact hcy

/-- Witness for C4: after `setFuncArg("_","x",1)` and
`setFuncArg("f","x",2)`, `getArgs("f")` yields `x = 2`. -/
theorem claim_C4_witness :
    StoreWF (ArgStore.setFuncArg
      (ArgStore.setFuncArg [] "_" "x" (Value.vint 1)) "f" "x" (Value.vint 2)) ∧
    rget ((ArgStore.getArgs
        (ArgStore.setFuncArg
          (ArgStore.setFuncArg [] "_" "x" (Value.vint 1)) "f" "x" (Value.vint 2))
        "f" none).2) "x" = some (Value.vint 2) :=
  ⟨by decide,
   (claim_C4_function_beats_wildcard _ "f" "x" "x"
     (Value.vint 1) (Value.vint 2) (Value.vint 1) (by decide) (by decide)).1 rfl rfl⟩

/-- Folding the `patchFuncArgs` body over keys not containing `k`
leaves the entry of `k` untouched. -/
theorem rget_foldl_patch_of_none (m : List (String × Args)) :
    ∀ (s : Store) (k : String), rget m k = none →
      rget (m.foldl (fun st p => ArgStore.patchFuncArgs st p.1 p.2) s) k = rget s k := by
  induction m with
  | nil => intro s k _; rfl
  | cons q rest ih =>
    intro s k h
    by_cases hq : q.1 = k
    · simp [rget, hq] at h
    · have h2 : rget rest k = none := by simpa [rget, hq] using h
      rw [List.foldl_cons, ih _ k h2, rget_patchFuncArgs, if_neg hq]

/-- When `m` binds `k` exactly once, folding the `patchFuncArgs` body
over `m` gives `k` the same entry as the single independent
`patchFuncArgs` call. -/
theorem rget_foldl_patch_of_some (m : List (String × Args)) :
    ∀ (s : Store) (k : String) (p : Args), (keys m).Nodup → rget m k = some p →
      rget (m.foldl (fun st q => ArgStore.patchFuncArgs st q.1 q.2) s) k
        = rget (ArgStore.patchFuncArgs s k p) k := by
  induction m with
  | nil => intro s k p _ h; simp [rget] at h
  | cons q rest ih =>
    intro s k p hm h
    simp only [keys, List.map_cons, List.nodup_cons] at hm
    rw [List.foldl_cons]
    by_cases hq : q.1 = k
    · have hp : q.2 = p := by simpa [rget, hq] using h
      have hnone : rget rest k = none := by
        rw [rget_eq_none_iff, ← hq]
        exact hm.1
      rw [rget_foldl_patch_of_none rest _ k hnone]
      subst hq
      subst hp
      rfl
    · have h2 : rget rest k = some p := by simpa [rget, hq] using h
      rw [ih _ k p hm.2 h2]
      simp [rget_patchFuncArgs, hq]

/-- C7: `patchArgs(m)` touches exactly the keys of `m`: any key absent
from `m` keeps its prior entry, and a key of `m` gets the entry an
independent `patchFuncArgs` call with `m`'s record would have given
it. -/
theorem claim_C7_patchArgs_frame (s : Store) (m : List (String × Args)) (k : String)
    (hm : (keys m).Nodup) :
    (rget m k = none → rget (ArgStore.patchArgs s m) k = rget s k) ∧
    (∀ p, rget m k = some p →
      rget (ArgStore.patchArgs s m) k = rget (ArgStore.patchFuncArgs s k p) k) := by
  rw [patchArgs_eq_foldl]
  exact ⟨fun h => rget_foldl_patch_of_none m s k h,
         fun p hp => rget_foldl_patch_of_some m s k p hm hp⟩

/-- Witness for C7: `patchArgs({f: {a:1}, g: {b:2}})` leaves the third
key `h` with exactly its prior record. -/
theorem claim_C7_witness :
    (keys [("f", [("a", Value.vint 1)]), ("g", [("b", Value.vint 2)])]).Nodup ∧
    rget (ArgStore.patchArgs [("h", [("c", Value.vint 3)])]
        [("f", [("a", Value.vint 1)]), ("g", [("b", Value.vint 2)])]) "h"
      = rget [("h", [("c", Value.vint 3)])] "h" :=
  ⟨by decide,
   (claim_C7_patchArgs_frame [("h", [("c", Value.vint 3)])]
     [("f", [("a", Value.vint 1)]), ("g", [("b", Value.vint 2)])] "h" (by decide)).1 rfl⟩

/-- Folding the `patchFuncArgs` body never erases an existing entry. -/
theorem isSome_rget_patchArgs (m : List (String × Args)) :
    ∀ (s : Store) (x : String), (rget s x).isSome = true →
      (rget (ArgStore.patchArgs s m) x).isSome = true := by
  intro s x hx
  rw [patchArgs_eq_foldl]
  induction m generalizing s with
  | nil => exact hx
  | cons q rest ih =>
    rw [List.foldl_cons]
    apply ih
    rw [rget_patchFuncArgs]
    by_cases hq : q.1 = x <;> simp [hq, hx]

/-- C9: no operation removes a store entry — a key present before
`setFuncArg`, `patchFuncArgs`, `patchArgs` or `getArgs` is still
present after it. -/
theorem claim_C9_keys_only_grow (s : Store) (f arg : String) (v : Value) (p : Args)
    (m : List (String × Args)) (o : Option Args) (x : String)
    (hx : (rget s x).isSome = true) :
    ((rget (ArgStore.setFuncArg s f arg v) x).isSome = true) ∧
    ((rget (ArgStore.patchFuncArgs s f p) x).isSome = true) ∧
    ((rget (ArgStore.patchArgs s m) x).isSome = true) ∧
    ((rget ((ArgStore.getArgs s f o).1) x).isSome = true) := by
  refine ⟨?_, ?_, isSome_rget_patchArgs m s x hx, hx⟩
  · rw [rget_setFuncArg]
    by_cases hf : f = x <;> simp [hf, hx]
  · rw [rget_patchFuncArgs]
    by_cases hf : f = x <;> simp [hf, hx]

/-- Witness for C9 on a one-entry store, exercising all four
operations against the present key `"f"`. -/
theorem claim_C9_witness :
    (rget [("f", [("a", Value.vint 1)])] "f").isSome = true ∧
    ((rget (ArgStore.setFuncArg [("f", [("a", Value.vint 1)])] "g" "b" (Value.vint 2)) "f").isSome = true) ∧
    ((rget (ArgStore.patchFuncArgs [("f", [("a", Value.vint 1)])] "g" [("c", Value.vint 3)]) "f").isSome = true) ∧
    ((rget (ArgStore.patchArgs [("f", [("a", Value.vint 1)])] [("g", [])]) "f").isSome = true) ∧
    ((rget ((ArgStore.getArgs [("f", [("a", Value.vint 1)])] "g" none).1) "f").isSome = true) :=
  ⟨rfl, claim_C9_keys_only_grow [("f", [("a", Value.vint 1)])] "g" "b" (Value.vint 2)
    [("c", Value.vint 3)] [("g", [])] none "f" rfl⟩

/-- C1: the claim says `patchFuncArgs` preserves unspecified top-level
keys, but the code builds `{ old, ...args }`, nesting the whole prior
record under the key `"old"`.  At the failing input — the store after
`setFuncArg("f","a",1)`, patched with `{b: 2}` — the prior record did
map `a` to `1`, yet the patched record has no top-level `"a"` at all:
the pair survives only inside the nested `"old"` record. -/
theorem claim_C1_patch_drops_top_level :
    rget ((rget (ArgStore.setFuncArg [] "f" "a" (Value.vint 1)) "f").getD []) "a"
      = some (Value.vint 1) ∧
    rget ((rget (ArgStore.patchFuncArgs
        (ArgStore.setFuncArg [] "f" "a" (Value.vint 1)) "f"
        [("b", Value.vint 2)]) "f").getD []) "a" = none ∧
    rget ((rget (ArgStore.patchFuncArgs
        (ArgStore.setFuncArg [] "f" "a" (Value.vint 1)) "f"
        [("b", Value.vint 2)]) "f").getD []) "old"
      = some (Value.vobj [("a", Value.vint 1)]) := ⟨rfl, rfl, rfl⟩

/-- C8: the entry point made by `makeDispatcher` resolves the merged
record via `getArgs(f, uArgs)`; it fails with a validation error (body
never reached) when `uArgs` is not a flat record, fails with a
resolved-args type error (body never reached) when the merged record
does not satisfy the declared predicate, and otherwise invokes the
body with exactly the merged record. -/
theorem claim_C8_dispatcher_validates (δ ρ : Type) (s : Store) (f : String)
    (pred : Args → Bool) (denops : δ) (body : δ → Args → ρ) (uArgs : Value) :
    (∀ o, uArgs = Value.vobj o →
      (pred ((ArgStore.getArgs s f (some o)).2) = true →
        ArgStore.makeDispatcher s denops f pred body uArgs =
          Except.ok (body denops ((ArgStore.getArgs s f (some o)).2))) ∧
      (pred ((ArgStore.getArgs s f (some o)).2) = false →
        ArgStore.makeDispatcher s denops f pred body uArgs =
          Except.error DispatchError.resolvedArgsTypeError)) ∧
    (isArgs uArgs = false →
      ArgStore.makeDispatcher s denops f pred body uArgs =
        Except.error DispatchError.validationError) := by
  constructor
  · rintro o rfl
    constructor
    · intro hp
      simp [ArgStore.makeDispatcher, ArgStore.ensureArgs, hp, Except.map]
    · intro hp
      simp [ArgStore.makeDispatcher, ArgStore.ensureArgs, hp, Except.map]
  · intro hu
    cases uArgs <;>
      simp_all [isArgs, ArgStore.makeDispatcher, ArgStore.ensureArgs, Except.map]

/-- Witness for C8: with `{a: 1}` stored for `"f"`, a predicate
requiring key `"a"`, and the empty record as untyped input, the
dispatcher invokes the body with the merged record `{a: 1}`. -/
theorem claim_C8_witness :
    ArgStore.makeDispatcher [("f", [("a", Value.vint 1)])] () "f"
        (fun a => (rget a "a").isSome) (fun _ a => a) (Value.vobj [])
      = Except.ok [("a", Value.vint 1)] :=
  ((claim_C8_dispatcher_validates Unit Args [("f", [("a", Value.vint 1)])] "f"
      (fun a => (rget a "a").isSome) () (fun _ a => a) (Value.vobj [])).1 [] rfl).1 rfl

/-- C10 counterexample: the claim ends "so r's former top-level keys no
longer appear at the top level of getArgs(k)", but the wildcard record
can still supply such a key.  Concretely, with `x = 1` stored for the
wildcard and `x = 2` stored for `"f"` (so `"a"` is a top-level key of
the prior record), after `patchFuncArgs("f", {})` the call
`getArgs("f")` still yields the top-level pair `a = 1`. -/
theorem claim_C10_counterexample :
    rget ((rget [("_", [("a", Value.vint 1)]), ("f", [("a", Value.vint 2)])] "f").getD []) "a"
      = some (Value.vint 2) ∧
    rget ((ArgStore.getArgs
        (ArgStore.patchFuncArgs
          [("_", [("a", Value.vint 1)]), ("f", [("a", Value.vint 2)])] "f" [])
        "f" none).2) "a" = some (Value.vint 1) ∧
    (rget ((ArgStore.getArgs
        (ArgStore.patchFuncArgs
          [("_", [("a", Value.vint 1)]), ("f", [("a", Value.vint 2)])] "f" [])
        "f" none).2) "a").isSome = true := ⟨rfl, rfl, rfl⟩

/-- C10 amended: after `patchFuncArgs(k, p)` the record stored for `k`
is `{old: r}` overlaid by `p` (`p` wins on `"old"`); in particular an
empty patch replaces a prior record `r` by `{old: r}`, so `r`'s former
top-level keys disappear from the stored record, and disappear from
`getArgs(k)` unless the wildcard record itself defines them, in which
case `getArgs(k)` yields the wildcard's value. -/
theorem claim_C10_patch_replaces_record (s : Store) (f : String) (p : Args) (x : String)
    (hp : ArgsWF p) :
    (rget (ArgStore.patchFuncArgs s f p) f =
       some (rspread [("old", Value.vobj ((rget s f).getD []))] p)) ∧
    (∀ u, rget p "old" = some u →
       rget ((rget (ArgStore.patchFuncArgs s f p) f).getD []) "old" = some u) ∧
    (p = [] → x ≠ "old" →
       rget ((rget (ArgStore.patchFuncArgs s f p) f).getD []) x = none) ∧
    (p = [] → x ≠ "old" → rget ((rget s "_").getD []) x = none →
       rget ((ArgStore.getArgs (ArgStore.patchFuncArgs s f p) f none).2) x = none) ∧
    (p = [] → x ≠ "old" → f ≠ "_" → ∀ w, rget ((rget s "_").getD []) x = some w →
       rget ((ArgStore.getArgs (ArgStore.patchFuncArgs s f p) f none).2) x = some w) := by
  have hstored : rget (ArgStore.patchFuncArgs s f p) f =
      some (rspread [("old", Value.vobj ((rget s f).getD []))] p) := by
    rw [rget_patchFuncArgs, if_pos rfl]
  have hbase : ∀ z : String, z ≠ "old" →
      rget [("old", Value.vobj ((rget s f).getD []))] z = none := by
    intro z hz
    have hz2 : ¬ ("old" = z) := fun h => hz h.symm
    simp [rget, hz2]
  refine ⟨hstored, ?_, ?_, ?_, ?_⟩
  · intro u hu
    rw [hstored, Option.getD_some]
    exact rget_rspread_of_some _ p "old" u hp hu
  · intro hpnil hx
    subst hpnil
    rw [hstored, Option.getD_some, rspread_nil]
    exact hbase x hx
  · intro hpnil hx hcross
    subst hpnil
    rw [getArgs_none_snd, hstored, Option.getD_some, rspread_nil,
      rget_rspread_of_none _ _ x (hbase x hx)]
    by_cases hf : f = "_"
    · subst hf
      rw [hstored, Option.getD_some, rspread_nil]
      exact hbase x hx
    · rw [rget_patchFuncArgs, if_neg (fun h => hf h)]
      exact hcross
  · intro hpnil hx hf w hcross
    subst hpnil
    rw [getArgs_none_snd, hstored, Option.getD_some, rspread_nil,
      rget_rspread_of_none _ _ x (hbase x hx),
      rget_patchFuncArgs, if_neg (fun h => hf h)]
    exact hcross

/-- Witness for C10: an empty patch on `"f"` (prior record `{a: 2}`,
empty wildcard) removes `"a"` from both the stored record and
`getArgs("f")`. -/
theorem claim_C10_witness :
    ArgsWF ([] : Args) ∧
    rget ((rget (ArgStore.patchFuncArgs [("f", [("a", Value.vint 2)])] "f" []) "f").getD []) "a"
      = none ∧
    rget ((ArgStore.getArgs (ArgStore.patchFuncArgs [("f", [("a", Value.vint 2)])] "f" [])
        "f" none).2) "a" = none :=
  ⟨by decide,
   (claim_C10_patch_replaces_record [("f", [("a", Value.vint 2)])] "f" [] "a"
     (by decide)).2.2.1 rfl (by decide),
   (claim_C10_patch_replaces_record [("f", [("a", Value.vint 2)])] "f" [] "a"
     (by decide)).2.2.2.1 rfl (by decide) rfl⟩
